import Mathlib

/-!
Shallow embedding of `srl-zoo`'s `losses/losses.py` (loss accumulator
`LossManager` plus the library of loss functions), with theorems checking the
natural-language specification against it.

Modelling conventions:
* Tensors are embedded as `List α` (flattened) or `List (List α)` (a batch of
  rows), over a `LinearOrderedField α`; real-valued functions that need
  transcendental operations (`exp`, `log`, `sqrt`) are specialised to `ℝ`.
  Python floats are embedded as exact field elements (`0.2` as `1/5`,
  `1e-10` as `1/10^10`).
* Python exceptions (`ZeroDivisionError` at construction, `KeyError` at
  history commit) are embedded with `Except String`.
* The history dict is embedded as an association list `List (String × List α)`;
  Python mutates it in place, here it is threaded through the state.
-/

set_option autoImplicit false
set_option linter.unusedSectionVars false
set_option linter.unusedVariables false

namespace SrlZoo

/-- Python's substring test `sub in s`, on the underlying character lists. -/
def strContains (s sub : String) : Bool :=
  s.data.tails.any (fun t => sub.data.isPrefixOf t)

/-- One named parameter of the model collaborator: `model.named_parameters()`
yields (name, tensor) pairs, where the tensor has a `requires_grad` flag and a
shape `size()`. -/
structure Param where
  name : String
  requiresGrad : Bool
  size : List Nat
deriving DecidableEq

/-- State of `LossManager` (losses.py lines 18-61): the regularizable
parameters and `l1_coeff` computed at construction, the optional history dict,
and the three parallel per-step sequences. -/
structure LossManager (α : Type) where
  reg_params : List Param
  l1_coeff : α
  loss_history : Option (List (String × List α))
  names : List String
  weights : List α
  losses : List α
deriving DecidableEq

variable {α : Type} [LinearOrderedField α]

/-- Mean of a list of scalars, `tensor.mean()`: sum divided by element count. -/
def listMean (l : List α) : α := l.sum / (l.length : α)

/-- `LossManager.__init__` (lines 23-35): filter parameters whose name does
not contain ".bias" and which require grad, count their elements
(`reduce(lambda x, y: x * y, param.size())` on a non-empty size list is the
product of the dimensions; 0-dimensional parameters, where Python's `reduce`
would raise `TypeError`, are outside this embedding's scope), and divide
`l1_reg` by that count.  When the count is zero Python raises
`ZeroDivisionError` from `l1_reg / n_params`. -/
def initLossManager (namedParameters : List Param) (l1_reg : α)
    (loss_history : Option (List (String × List α))) :
    Except String (LossManager α) :=
  let reg_params := namedParameters.filter
    (fun p => !(strContains p.name ".bias") && p.requiresGrad)
  let n_params := (reg_params.map (fun p => p.size.prod)).sum
  if n_params = 0 then
    Except.error "ZeroDivisionError"
  else
    Except.ok
      { reg_params := reg_params
        l1_coeff := l1_reg / (n_params : α)
        loss_history := loss_history
        names := []
        weights := []
        losses := [] }

/-- `LossManager.addToLosses` (lines 37-46): append the triple to the three
parallel sequences. -/
def addToLosses (m : LossManager α) (name : String) (weight loss_value : α) :
    LossManager α :=
  { m with
    names := m.names ++ [name]
    weights := m.weights ++ [weight]
    losses := m.losses ++ [loss_value] }

/-- Lookup in the embedded history dict, `self.loss_history[name]`;
`none` models Python's `KeyError`. -/
def histLookup (h : List (String × List α)) (name : String) :
    Option (List α) :=
  match h with
  | [] => none
  | (k, v) :: t => if k = name then some v else histLookup t name

/-- Overwrite the value stored under an existing key of the history dict. -/
def histSet (h : List (String × List α)) (name : String) (v : List α) :
    List (String × List α) :=
  match h with
  | [] => []
  | (k, w) :: t => if k = name then (k, v) :: t else (k, w) :: histSet t name v

/-- In-place update of the last element of a list,
`self.loss_history[name][-1] += w * loss.item()`. -/
def updateLast (l : List α) (f : α → α) : List α :=
  match l with
  | [] => []
  | [a] => [f a]
  | a :: rest => a :: updateLast rest f

/-- The loop body of `updateLossHistory` (lines 50-55): iterate over
`zip(names, weights, losses)`; for each term with `w > 0`, look the name up in
the history (`KeyError` when absent), and either accumulate `w * loss` into
the last entry or append a fresh entry `w * loss`. -/
def updateLossHistoryLoop (terms : List (String × α × α))
    (h : List (String × List α)) : Except String (List (String × List α)) :=
  match terms with
  | [] => Except.ok h
  | (name, w, loss) :: rest =>
    if 0 < w then
      match histLookup h name with
      | none => Except.error "KeyError"
      | some entries =>
        if 0 < entries.length then
          updateLossHistoryLoop rest
            (histSet h name (updateLast entries (fun x => x + w * loss)))
        else
          updateLossHistoryLoop rest (histSet h name (entries ++ [w * loss]))
    else
      updateLossHistoryLoop rest h

/-- `LossManager.updateLossHistory` (lines 48-55): nothing happens when no
history was configured; otherwise run the loop over the recorded terms. -/
def updateLossHistory (m : LossManager α) : Except String (LossManager α) :=
  match m.loss_history with
  | none => Except.ok m
  | some h =>
    (updateLossHistoryLoop (m.names.zip (m.weights.zip m.losses)) h).map
      (fun h' => { m with loss_history := some h' })

/-- `LossManager.computeTotalLoss` (lines 57-58):
`sum([self.weights[i] * self.losses[i] for i in range(len(self.losses))])`.
Python's `sum` starts from the additive identity; out-of-range indexing (only
possible if the lock-step invariant were broken) is totalised with `getD i 0`.
-/
def computeTotalLoss (m : LossManager α) : α :=
  ((List.range m.losses.length).map
    (fun i => m.weights.getD i 0 * m.losses.getD i 0)).sum

/-- `LossManager.resetLosses` (lines 60-61): empty the three parallel
sequences. -/
def resetLosses (m : LossManager α) : LossManager α :=
  { m with names := [], weights := [], losses := [] }

/-- A sequence of `addToLosses` calls, applied in order. -/
def applyAdds (m : LossManager α) (ts : List (String × α × α)) :
    LossManager α :=
  ts.foldl (fun acc t => addToLosses acc t.1 t.2.1 t.2.2) m

/-! ### Loss functions: polymorphic ones (no transcendental operations) -/

/-- `F.mse_loss(a, b, size_average=True)`: mean of elementwise squared
differences, on flattened tensors. -/
def mseMean (a b : List α) : α :=
  listMean (List.zipWith (fun x y => (x - y) ^ 2) a b)

/-- `F.mse_loss(a, b, size_average=False)`: sum of elementwise squared
differences, on flattened tensors. -/
def mseSum (a b : List α) : α :=
  (List.zipWith (fun x y => (x - y) ^ 2) a b).sum

/-- Per-row `(x - y).pow(2).sum(1)`: squared euclidean distance of two rows. -/
def distanceSq (x y : List α) : α :=
  (List.zipWith (fun a b => (a - b) ^ 2) x y).sum

/-- `forwardModelLoss` (lines 104-114): registers the MSE between predicted
and actual next states under 'forward_loss' and returns it weighted. -/
def forwardModelLoss (next_states_pred next_states : List α) (weight : α)
    (loss_manager : LossManager α) : α × LossManager α :=
  let forward_loss := mseMean next_states_pred next_states
  (weight * forward_loss,
   addToLosses loss_manager "forward_loss" weight forward_loss)

/-- `l1Loss` (lines 132-142): sum of absolute values over the given
parameter tensors, registered under 'l1_loss'. -/
def l1Loss (params : List (List α)) (weight : α)
    (loss_manager : LossManager α) : α × LossManager α :=
  let l1_loss := (params.map (fun p => (p.map (fun x => |x|)).sum)).sum
  (weight * l1_loss, addToLosses loss_manager "l1_loss" weight l1_loss)

/-- `reconstructionLoss` (lines 160-167): a pure MSE helper, with no
accumulator registration. -/
def reconstructionLoss (input_image target_image : List α) : α :=
  mseMean input_image target_image

/-- `autoEncoderLoss` (lines 170-182): reconstruction losses of both
observation pairs, summed and registered once under 'reconstruction_loss'. -/
def autoEncoderLoss (obs decoded_obs next_obs decoded_next_obs : List α)
    (weight : α) (loss_manager : LossManager α) : α × LossManager α :=
  let ae_loss := reconstructionLoss obs decoded_obs +
    reconstructionLoss next_obs decoded_next_obs
  (weight * ae_loss,
   addToLosses loss_manager "reconstruction_loss" weight ae_loss)

/-- `tripletLoss` (lines 335-349): time-contrastive triplet margin loss
`mean(relu(distance_positive - distance_negative + alpha))`, registered under
'triplet_loss'; the default margin `alpha=0.2` is the rational `1/5`. -/
def tripletLoss (states p_states n_states : List (List α)) (weight : α)
    (loss_manager : LossManager α) (alpha : α := 1/5) : α × LossManager α :=
  let distance_positive := List.zipWith distanceSq states p_states
  let distance_negative := List.zipWith distanceSq states n_states
  let tcn_triplet_loss := listMean
    (List.zipWith (fun dp dn => max (dp - dn + alpha) 0)
      distance_positive distance_negative)
  (weight * tcn_triplet_loss,
   addToLosses loss_manager "triplet_loss" weight tcn_triplet_loss)

/-! ### Loss functions over `ℝ` (use `exp`, `log`, `sqrt`, `π`) -/

/-- Elementwise difference of two rows. -/
def rowSub (x y : List ℝ) : List ℝ := List.zipWith (fun a b => a - b) x y

/-- `tensor.norm(2, dim=1)` applied to one row: the euclidean norm. -/
noncomputable def norm2 (r : List ℝ) : ℝ := Real.sqrt ((r.map (fun x => x ^ 2)).sum)

/-- The per-row similarity `lambda x, y: th.exp(-(x - y).norm(2, dim=1) ** 2)`
of `roboticPriorsLoss`, on a single pair of rows. -/
noncomputable def similarity (x y : List ℝ) : ℝ :=
  Real.exp (-(norm2 (rowSub x y)) ^ 2)

/-- Row gathering `states[pairs[:, 0]]`: indexing a batch by a list of row
indices (out-of-range indices are undefined behaviour in the source; they are
totalised with the empty row). -/
def gatherRows (m : List (List ℝ)) (idx : List Nat) : List (List ℝ) :=
  idx.map (fun i => m.getD i [])

/-- The temporal-coherence prior (line 83):
`(state_diff_norm ** 2).mean()` where `state_diff = next_states - states`. -/
noncomputable def tempCoherenceLoss (states next_states : List (List ℝ)) : ℝ :=
  listMean (((List.zipWith rowSub next_states states).map norm2).map
    (fun x => x ^ 2))

/-- The causality prior (lines 84-85): mean similarity between the states of
each dissimilar pair. -/
noncomputable def causalityLoss (states : List (List ℝ))
    (diss : List (Nat × Nat)) : ℝ :=
  listMean (diss.map (fun p =>
    similarity (states.getD p.1 []) (states.getD p.2 [])))

/-- The proportionality prior (lines 86-87): mean squared difference of the
state-delta norms over same-action pairs. -/
noncomputable def proportionalityLoss (states next_states : List (List ℝ))
    (same : List (Nat × Nat)) : ℝ :=
  let state_diff_norm := (List.zipWith rowSub next_states states).map norm2
  listMean (same.map (fun p =>
    (state_diff_norm.getD p.1 0 - state_diff_norm.getD p.2 0) ^ 2))

/-- The repeatability prior (lines 89-92): mean of similarity-weighted squared
norms of the state-delta differences over same-action pairs. -/
noncomputable def repeatabilityLoss (states next_states : List (List ℝ))
    (same : List (Nat × Nat)) : ℝ :=
  let state_diff := List.zipWith rowSub next_states states
  listMean (same.map (fun p =>
    similarity (states.getD p.1 []) (states.getD p.2 []) *
      (norm2 (rowSub (state_diff.getD p.1 []) (state_diff.getD p.2 []))) ^ 2))

/-- `roboticPriorsLoss` (lines 64-101): the four robotic priors, each
registered with weight 1 by the loop over the four parallel lists; returns
`weight * total` where `total` accumulates the four sub-losses.  The pair
arrays are selected by `minibatch_idx` from the precomputed per-minibatch
lists, as in the source. -/
noncomputable def roboticPriorsLoss (states next_states : List (List ℝ))
    (minibatch_idx : Nat)
    (dissimilar_pairs same_actions_pairs : List (List (Nat × Nat)))
    (weight : ℝ) (loss_manager : LossManager ℝ) : ℝ × LossManager ℝ :=
  let diss := dissimilar_pairs.getD minibatch_idx []
  let same := same_actions_pairs.getD minibatch_idx []
  let weightsL : List ℝ := [1, 1, 1, 1]
  let namesL := ["temp_coherence_loss", "causality_loss",
    "proportionality_loss", "repeatability_loss"]
  let lossesL := [tempCoherenceLoss states next_states,
    causalityLoss states diss,
    proportionalityLoss states next_states same,
    repeatabilityLoss states next_states same]
  let final := (namesL.zip (weightsL.zip lossesL)).foldl
    (fun (acc : ℝ × LossManager ℝ) t =>
      (acc.1 + t.2.2, addToLosses acc.2 t.1 t.2.1 t.2.2))
    (0, loss_manager)
  (weight * final.1, final.2)

/-- `nn.CrossEntropyLoss()` on one row of logits with one target index:
`log(Σ exp(logits)) - logits[target]`. -/
noncomputable def rowCrossEntropy (logits : List ℝ) (target : Nat) : ℝ :=
  Real.log ((logits.map Real.exp).sum) - logits.getD target 0

/-- `nn.CrossEntropyLoss()` with default mean reduction over the batch; the
targets are the already-squeezed label vector. -/
noncomputable def crossEntropyLoss (pred : List (List ℝ)) (targets : List Nat) : ℝ :=
  listMean (List.zipWith rowCrossEntropy pred targets)

/-- `inverseModelLoss` (lines 117-129): cross-entropy between predicted action
logits and true actions (`actions_st.squeeze(1)` embedded as the flat label
list), registered under 'inverse_loss'. -/
noncomputable def inverseModelLoss (actions_pred : List (List ℝ))
    (actions_st : List Nat) (weight : ℝ) (loss_manager : LossManager ℝ) :
    ℝ × LossManager ℝ :=
  let inverse_loss := crossEntropyLoss actions_pred actions_st
  (weight * inverse_loss,
   addToLosses loss_manager "inverse_loss" weight inverse_loss)

/-- `rewardModelLoss` (lines 145-157): cross-entropy between predicted reward
logits and true reward classes, registered under 'reward_loss'. -/
noncomputable def rewardModelLoss (rewards_pred : List (List ℝ))
    (rewards_st : List Nat) (weight : ℝ) (loss_manager : LossManager ℝ) :
    ℝ × LossManager ℝ :=
  let reward_loss := crossEntropyLoss rewards_pred rewards_st
  (weight * reward_loss,
   addToLosses loss_manager "reward_loss" weight reward_loss)

/-- The Gaussian KL-divergence term of `vaeLoss`:
`-0.5 * th.sum(1 + logvar - mu.pow(2) - logvar.exp())`. -/
noncomputable def klTerm (mu logvar : List ℝ) : ℝ :=
  -(1/2) * (List.zipWith (fun m l => 1 + l - m ^ 2 - Real.exp l) mu logvar).sum

/-- `vaeLoss` (lines 185-229): KL divergence over both latent pairs, combined
with either the perceptual (DAE-embedding) MSE branch or the pixel-space
generation MSE branch; registration differs per branch exactly as in the
source. -/
noncomputable def vaeLoss (decoded next_decoded obs next_obs mu next_mu
      logvar next_logvar : List ℝ)
    (weight : ℝ) (loss_manager : LossManager ℝ) (beta : ℝ := 1)
    (perceptual_similarity_loss : Bool := false)
    (encoded_real : List ℝ := []) (encoded_prediction : List ℝ := [])
    (next_encoded_real : List ℝ := []) (next_encoded_prediction : List ℝ := [])
    (weight_perceptual : ℝ := 0) : ℝ × LossManager ℝ :=
  let kl_divergence := klTerm mu logvar + klTerm next_mu next_logvar
  if perceptual_similarity_loss then
    let denoiser_encoding_loss := mseSum encoded_real encoded_prediction +
      mseSum next_encoded_real next_encoded_prediction
    let m1 := addToLosses loss_manager "denoising perceptual similarity"
      weight_perceptual denoiser_encoding_loss
    let vae_loss := weight_perceptual * denoiser_encoding_loss +
      beta * kl_divergence
    let m2 := addToLosses m1 "kl_loss" beta kl_divergence
    (weight * vae_loss, m2)
  else
    let generation_loss := mseSum decoded obs + mseSum next_decoded next_obs
    let vae_loss := generation_loss + beta * kl_divergence
    let m1 := addToLosses loss_manager "kl_loss" weight vae_loss
    (weight * vae_loss, m1)

/-- The epsilon guard of `mutualInformationLoss`, `eps = 1e-10`, embedded as
the exact rational it denotes. -/
noncomputable def miEps : ℝ := 1 / 10000000000

/-- The constant `float(1 / np.sqrt(2 * np.pi))`. -/
noncomputable def gaussC : ℝ := 1 / Real.sqrt (2 * Real.pi)

/-- `th.mean(M, dim=0)`: per-column means of a batch. -/
noncomputable def colMeans (m : List (List ℝ)) : List ℝ := m.transpose.map listMean

/-- `th.std` of one column: torch's default unbiased standard deviation
`sqrt(Σ (x - mean)² / (n - 1))`. -/
noncomputable def listStd (l : List ℝ) : ℝ :=
  Real.sqrt (((l.map (fun x => (x - listMean l) ^ 2)).sum) / ((l.length : ℝ) - 1))

/-- `th.std(M, dim=0)`: per-column standard deviations of a batch. -/
noncomputable def colStds (m : List (List ℝ)) : List ℝ := m.transpose.map listStd

/-- One row of `(M - th.mean(M, dim=0)) / (th.std(M, dim=0) + eps)`:
centering and epsilon-guarded normalisation against the given column
statistics. -/
noncomputable def normRowBy (r means stds : List ℝ) : List ℝ :=
  List.zipWith (fun a p => (a - p.1) / (p.2 + miEps)) r (means.zip stds)

/-- `th.cat([X, Y], dim=1)`: rowwise concatenation. -/
def catCols (x y : List (List ℝ)) : List (List ℝ) :=
  List.zipWith (fun a b => a ++ b) x y

/-- The Gaussian density estimate vector `p_x` (line 247-248, and `p_y` on
249-250): `1/sqrt(2π) * exp(-‖(X - mean)/(std + eps)‖²(dim=1) / 2) + eps`. -/
noncomputable def pVec (m : List (List ℝ)) : List ℝ :=
  m.map (fun r =>
    gaussC * Real.exp (-(norm2 (normRowBy r (colMeans m) (colStds m))) ^ 2 / 2)
      + miEps)

/-- The joint density estimate `p_xy` for one `(x, y)` index pair
(lines 253-255), computed against the statistics of `th.cat([X, Y], dim=1)`. -/
noncomputable def pJoint (x y : List (List ℝ)) (i j : Nat) : ℝ :=
  gaussC * Real.exp
    (-(norm2 (normRowBy (x.getD i [] ++ y.getD j [])
        (colMeans (catCols x y)) (colStds (catCols x y)))) ^ 2 / 2)
    + miEps

/-- The accumulated estimate `I` of `mutualInformationLoss`: the double loop
over all `(x, y)` sample pairs of `p_xy * log(p_xy / (p_x[x] * p_y[y]))`. -/
noncomputable def miEstimate (x y : List (List ℝ)) : ℝ :=
  ((List.range x.length).map (fun i =>
    ((List.range y.length).map (fun j =>
      pJoint x y i j *
        Real.log (pJoint x y i j / ((pVec x).getD i 0 * (pVec y).getD j 0)))).sum)).sum

/-- `mutualInformationLoss` (lines 232-260): computes `exp(-I)` and registers
it under 'reward_prior'. -/
noncomputable def mutualInformationLoss (states rewards_st : List (List ℝ))
    (weight : ℝ) (loss_manager : LossManager ℝ) : ℝ × LossManager ℝ :=
  let reward_prior_loss := Real.exp (-(miEstimate states rewards_st))
  (weight * reward_prior_loss,
   addToLosses loss_manager "reward_prior" weight reward_prior_loss)

/-- The denominators of every explicit division written in the body of
`mutualInformationLoss` (lines 246-256), in source order:
`sqrt(2π)` (the constant `1/np.sqrt(2π)`, three occurrences of the same
value), the literal `2` dividing each exponent, the epsilon-guarded
`std + eps` entries for `X`, `Y` and `th.cat([X, Y], dim=1)`, and the
probability products `p_x[x] * p_y[y]` dividing `p_xy`.  (The probability
estimates `p_xy` themselves appear as arguments of `log`, not as
denominators; their own epsilon guard is part of `pVec`/`pJoint`.) -/
noncomputable def miGuardedDenominators (x y : List (List ℝ)) : List ℝ :=
  [Real.sqrt (2 * Real.pi), 2]
    ++ (colStds x).map (fun s => s + miEps)
    ++ (colStds y).map (fun s => s + miEps)
    ++ (colStds (catCols x y)).map (fun s => s + miEps)
    ++ (pVec x).flatMap (fun a => (pVec y).map (fun b => a * b))

/-- Dot product of two vectors. -/
def dotList (a b : List ℝ) : ℝ := (List.zipWith (fun x y => x * y) a b).sum

/-- `M - th.mean(M, dim=0)`: subtract the column means from every row. -/
noncomputable def centerCols (m : List (List ℝ)) : List (List ℝ) :=
  m.map (fun r => List.zipWith (fun a mu => a - mu) r (colMeans m))

/-- `th.mm(A.t(), B)`: entry `(i, j)` is the dot product of column `i` of `A`
with column `j` of `B`. -/
def mmT (a b : List (List ℝ)) : List (List ℝ) :=
  a.transpose.map (fun colA => b.transpose.map (fun colB => dotList colA colB))

/-- `th.mean` of a whole matrix: mean over all entries. -/
noncomputable def matMean (m : List (List ℝ)) : ℝ := listMean m.flatten

/-- `rewardPriorLoss` (lines 263-277): `exp(-|mean(mm(centered_states.t(),
centered_rewards))|)`, registered under 'reward_prior'.  Its body contains no
division operator and no epsilon: the only implicit normalisations are
`th.mean`'s divisions by element counts, which do not depend on the data's
variance. -/
noncomputable def rewardPriorLoss (states rewards_st : List (List ℝ))
    (weight : ℝ) (loss_manager : LossManager ℝ) : ℝ × LossManager ℝ :=
  let reward_loss := matMean (mmT (centerCols states) (centerCols rewards_st))
  let reward_prior_loss := Real.exp (-|reward_loss|)
  (weight * reward_prior_loss,
   addToLosses loss_manager "reward_prior" weight reward_prior_loss)

/-- The denominators of the explicit divisions written in the body of
`rewardPriorLoss` (lines 273-275): there are none. -/
def rpGuardedDenominators : List ℝ := []

/-- Modelled from the spec: `models.priors.ReverseLayerF` is imported by
losses.py but its definition is not under src/.  The spec (§4.2 and §6) fixes
its forward pass to be the identity on the input values (its backward-pass
gradient negation is an autograd registration, outside a value-level
embedding). -/
def reverseLayerF (states : List (List ℝ)) (_lambda : ℝ) : List (List ℝ) :=
  states

/-- `nn.BCELoss(size_average=False)`: summed binary cross-entropy
`Σ -(y·log p + (1-y)·log(1-p))` between predicted probabilities and targets. -/
noncomputable def bceSumLoss (preds targets : List ℝ) : ℝ :=
  -(List.zipWith (fun p y => y * Real.log p + (1 - y) * Real.log (1 - p))
      preds targets).sum

/-- `episodePriorLoss` (lines 280-332).  The discriminator is the external
model collaborator, embedded as a function from one concatenated input row to
its scalar output.  `others_idx` is the outcome of the `np.random` sampling
(balanced when `balanced_sampling`, else a uniform permutation); the sampling
draws from the process-global RNG, so the sampled index vector is passed
explicitly and `balanced_sampling` only selects how it was drawn. -/
noncomputable def episodePriorLoss (minibatch_idx : Nat)
    (minibatch_episodes : List (List Nat)) (states : List (List ℝ))
    (discriminator : List ℝ → ℝ) (_balanced_sampling : Bool)
    (others_idx : List Nat) (weight : ℝ) (loss_manager : LossManager ℝ) :
    ℝ × LossManager ℝ :=
  let lambda_ : ℝ := 1
  let reverse_states := reverseLayerF states lambda_
  let episodes := minibatch_episodes.getD minibatch_idx []
  let episode_input :=
    List.zipWith (fun a b => a ++ b) reverse_states
      (gatherRows reverse_states others_idx)
  let episode_output := episode_input.map discriminator
  let others_episodes := others_idx.map (fun i => episodes.getD i 0)
  let same_episodes :=
    List.zipWith (fun e o => if e = o then (1 : ℝ) else 0)
      episodes others_episodes
  let episode_loss := bceSumLoss episode_output same_episodes
  (weight * episode_loss,
   addToLosses loss_manager "episode_prior" weight episode_loss)

/-! ### Specification-side definitions and scenario constants

`commitSpecLoop`/`commitSpec` are written from the words of the spec's
`commitToHistory` description (to be compared with `updateLossHistoryLoop`,
which is translated from the Python loop); the remaining definitions are
invariant predicates and concrete scenario states used by the theorems. -/

/-- Spec-side processing of one batch of already-filtered terms: for each
term, when the history has at least one entry for its name, add
`weight * value` to the most recent entry; otherwise append a new entry equal
to `weight * value`; a name with no slot is a hard failure. -/
def commitSpecLoop (terms : List (String × α × α))
    (h : List (String × List α)) : Except String (List (String × List α)) :=
  match terms with
  | [] => Except.ok h
  | (name, w, loss) :: rest =>
    match histLookup h name with
    | none => Except.error "KeyError"
    | some entries =>
      if entries = [] then
        commitSpecLoop rest (histSet h name (entries ++ [w * loss]))
      else
        commitSpecLoop rest (histSet h name (updateLast entries (fun x => x + w * loss)))

/-- Spec-side `commitToHistory` body: process exactly the recorded terms with
weight > 0, in order. -/
def commitSpec (terms : List (String × α × α))
    (h : List (String × List α)) : Except String (List (String × List α)) :=
  commitSpecLoop (terms.filter (fun t => 0 < t.2.1)) h

/-- Lock-step invariant: the three parallel sequences have equal length. -/
def lockStep (m : LossManager α) : Prop :=
  m.names.length = m.weights.length ∧ m.weights.length = m.losses.length

/-- States reachable from a successful construction through the accumulator's
state-changing operations (`computeTotalLoss` is pure and leaves the state
untouched by construction). -/
inductive Reachable : LossManager α → Prop where
  | init (ps : List Param) (l1 : α) (h : Option (List (String × List α)))
      (m : LossManager α) :
      initLossManager ps l1 h = Except.ok m → Reachable m
  | add (m : LossManager α) (n : String) (w v : α) :
      Reachable m → Reachable (addToLosses m n w v)
  | reset (m : LossManager α) : Reachable m → Reachable (resetLosses m)
  | commit (m m' : LossManager α) :
      Reachable m → updateLossHistory m = Except.ok m' → Reachable m'

/-- The registration effect claimed for a single-`add` loss function: exactly
one term is appended to the three parallel sequences (with the function's
name, the given weight, and some raw loss value), everything else in the
accumulator is untouched, and the returned scalar is `weight * raw`. -/
def RegistersOnce (result : α × LossManager α) (m : LossManager α)
    (name : String) (weight : α) : Prop :=
  ∃ raw, result.2.names = m.names ++ [name]
    ∧ result.2.weights = m.weights ++ [weight]
    ∧ result.2.losses = m.losses ++ [raw]
    ∧ result.2.loss_history = m.loss_history
    ∧ result.2.reg_params = m.reg_params
    ∧ result.2.l1_coeff = m.l1_coeff
    ∧ result.1 = weight * raw

/-- Zero-variance input: all sample rows identical, so every feature column
has zero variance. -/
def ZeroVarianceBatch (m : List (List ℝ)) : Prop :=
  ∀ r ∈ m, ∀ r' ∈ m, r = r'

/-- Every explicit-division denominator of `mutualInformationLoss` is
strictly positive on the given input. -/
def MiDenomsPos (x y : List (List ℝ)) : Prop :=
  ∀ d ∈ miGuardedDenominators x y, 0 < d

/-- An empty accumulator over `ℚ`, as produced by construction or reset. -/
def mgrQ0 : LossManager ℚ :=
  { reg_params := [], l1_coeff := 0, loss_history := none,
    names := [], weights := [], losses := [] }

/-- Accumulator configured with an initially empty history slot for "x". -/
def mgrC3 : LossManager ℚ :=
  { reg_params := [], l1_coeff := 0, loss_history := some [("x", [])],
    names := [], weights := [], losses := [] }

/-- The C3 scenario: add("x", 1, 2.0); commit; add("x", 1, 3.0); commit —
with no reset in between. -/
def c3Run : Except String (LossManager ℚ) := do
  let m1 := addToLosses mgrC3 "x" 1 2
  let m2 ← updateLossHistory m1
  let m3 := addToLosses m2 "x" 1 3
  updateLossHistory m3

/-- The most recent history entry for "x" after the C3 scenario,
`loss_history["x"][-1]`. -/
def c3LastEntry : Option ℚ :=
  match c3Run with
  | Except.ok m => (m.loss_history.bind (fun h => histLookup h "x")).bind
      (fun l => l.getLast?)
  | Except.error _ => none

/-- A model with one trainable non-bias 2x3 parameter. -/
def psGood : List Param := [{ name := "fc.weight", requiresGrad := true, size := [2, 3] }]

/-- The accumulator successfully constructed from `psGood` with `l1_reg = 1`:
`l1_coeff = 1/6`. -/
def mgrInitQ : LossManager ℚ :=
  { reg_params := [{ name := "fc.weight", requiresGrad := true, size := [2, 3] }],
    l1_coeff := 1 / 6, loss_history := none,
    names := [], weights := [], losses := [] }

/-- A model with no regularizable parameter: one bias, one frozen weight. -/
def psBad : List Param :=
  [{ name := "fc.bias", requiresGrad := true, size := [3] },
   { name := "frozen.weight", requiresGrad := false, size := [2] }]

/-- An accumulator holding a recorded term "x" with weight 1 while its
configured history only has a slot for "known". -/
def mgrBad : LossManager ℚ :=
  { reg_params := [], l1_coeff := 0, loss_history := some [("known", [])],
    names := ["x"], weights := [1], losses := [2] }

/-- An empty accumulator over `ℝ` for the loss-function theorems. -/
noncomputable def mgrR0 : LossManager ℝ :=
  { reg_params := [], l1_coeff := 0, loss_history := none,
    names := [], weights := [], losses := [] }

/-! ### Helper lemmas -/

theorem applyAdds_names (m : LossManager α) (ts : List (String × α × α)) :
    (applyAdds m ts).names = m.names ++ ts.map (fun t => t.1) := by
  induction ts generalizing m with
  | nil => simp [applyAdds]
  | cons t rest ih =>
    simp [applyAdds, addToLosses] at ih ⊢
    rw [ih]
    simp

theorem applyAdds_weights (m : LossManager α) (ts : List (String × α × α)) :
    (applyAdds m ts).weights = m.weights ++ ts.map (fun t => t.2.1) := by
  induction ts generalizing m with
  | nil => simp [applyAdds]
  | cons t rest ih =>
    simp [applyAdds, addToLosses] at ih ⊢
    rw [ih]
    simp

theorem applyAdds_losses (m : LossManager α) (ts : List (String × α × α)) :
    (applyAdds m ts).losses = m.losses ++ ts.map (fun t => t.2.2) := by
  induction ts generalizing m with
  | nil => simp [applyAdds]
  | cons t rest ih =>
    simp [applyAdds, addToLosses] at ih ⊢
    rw [ih]
    simp

theorem rangeDotSum (w l : List α) (h : w.length = l.length) :
    ((List.range l.length).map (fun i => w.getD i 0 * l.getD i 0)).sum
      = ((w.zip l).map (fun p => p.1 * p.2)).sum := by
  induction l generalizing w with
  | nil =>
    rw [List.length_eq_zero.mp h]
    simp
  | cons a t ih =>
    cases w with
    | nil => simp at h
    | cons b wt =>
      simp only [List.length_cons] at h
      rw [List.length_cons, List.range_succ_eq_map, List.map_cons, List.map_map]
      simp only [Function.comp_def, List.getD_cons_succ, List.getD_cons_zero]
      rw [List.sum_cons, ih wt (Nat.succ_injective h)]
      simp

theorem computeTotalLoss_eq_zipSum (m : LossManager α)
    (h : m.weights.length = m.losses.length) :
    computeTotalLoss m = ((m.weights.zip m.losses).map (fun p => p.1 * p.2)).sum :=
  rangeDotSum m.weights m.losses h

/-! ### C1 -/

/-- C1: for every sequence of `add(name, weight, value)` calls made on a fresh
(just-constructed or just-reset, hence empty) accumulator, `computeTotalLoss`
returns the sum of `weight_i * value_i` over the recorded terms in insertion
order, and it returns the additive identity zero when no terms have been
added. -/
theorem total_is_weighted_sum (m : LossManager α) (ts : List (String × α × α))
    (hw : m.weights = []) (hl : m.losses = []) :
    computeTotalLoss (applyAdds m ts) = (ts.map (fun t => t.2.1 * t.2.2)).sum
    ∧ computeTotalLoss m = 0 := by
  constructor
  · have hlen : (applyAdds m ts).weights.length = (applyAdds m ts).losses.length := by
      rw [applyAdds_weights, applyAdds_losses, hw, hl]
      simp
    rw [computeTotalLoss_eq_zipSum _ hlen, applyAdds_weights, applyAdds_losses,
      hw, hl, List.nil_append, List.nil_append, List.zip_map', List.map_map]
    rfl
  · simp [computeTotalLoss, hl]

/-- Witness for C1 at a concrete input: two recorded terms give
`1 * 2 + 2 * 3 = 8`, and the empty accumulator totals to zero. -/
theorem total_is_weighted_sum_witness :
    computeTotalLoss (applyAdds mgrQ0 [("a", 1, 2), ("b", 2, 3)]) = 8
    ∧ computeTotalLoss mgrQ0 = 0 :=
  ⟨((total_is_weighted_sum mgrQ0 [("a", 1, 2), ("b", 2, 3)] rfl rfl).1).trans
      (by norm_num),
   (total_is_weighted_sum mgrQ0 [] rfl rfl).2⟩

/-! ### C5 -/

/-- C5: `resetLosses` clears exactly the three parallel sequences and
modifies nothing else — in particular the configured history and the
construction-time fields are unchanged — and the total of a freshly reset
accumulator is zero with all three sequences of length zero. -/
theorem reset_clears_only_term_sequences (m : LossManager α) :
    resetLosses m = { m with names := [], weights := [], losses := [] }
    ∧ (resetLosses m).loss_history = m.loss_history
    ∧ (resetLosses m).reg_params = m.reg_params
    ∧ (resetLosses m).l1_coeff = m.l1_coeff
    ∧ computeTotalLoss (resetLosses m) = 0
    ∧ (resetLosses m).names.length = 0
    ∧ (resetLosses m).weights.length = 0
    ∧ (resetLosses m).losses.length = 0 := by
  refine ⟨rfl, rfl, rfl, rfl, ?_, rfl, rfl, rfl⟩
  simp [computeTotalLoss, resetLosses]

/-! ### C2 -/

theorem updateLoop_eq_commitSpec (terms : List (String × α × α))
    (h : List (String × List α)) :
    updateLossHistoryLoop terms h = commitSpec terms h := by
  induction terms generalizing h with
  | nil => rfl
  | cons t rest ih =>
    obtain ⟨name, w, loss⟩ := t
    by_cases hw : 0 < w
    · cases hl : histLookup h name with
      | none =>
        simp [updateLossHistoryLoop, commitSpec, commitSpecLoop, hw, hl,
          List.filter_cons_of_pos (decide_eq_true hw)]
      | some entries =>
        by_cases he : entries = []
        · subst he
          simp [updateLossHistoryLoop, commitSpec, commitSpecLoop, hw, hl,
            List.filter_cons_of_pos (decide_eq_true hw), ih]
        · simp [updateLossHistoryLoop, commitSpec, commitSpecLoop, hw, hl, he,
            List.length_pos.mpr he,
            List.filter_cons_of_pos (decide_eq_true hw), ih]
    · simp [updateLossHistoryLoop, commitSpec, hw,
        List.filter_cons_of_neg (fun hc => hw (of_decide_eq_true hc)), ih]

/-- C2: the embedded `updateLossHistory` agrees with the spec-side
description `commitSpec` (process exactly the recorded terms with weight > 0,
accumulating into the most recent entry when one exists and appending a fresh
`weight * value` entry otherwise), and is a no-op leaving all state unchanged
when no history was configured. -/
theorem commit_matches_spec (m : LossManager α) (h : List (String × List α)) :
    updateLossHistory { m with loss_history := none }
        = Except.ok { m with loss_history := none }
    ∧ updateLossHistory { m with loss_history := some h }
        = (commitSpec (m.names.zip (m.weights.zip m.losses)) h).map
            (fun h' => { m with loss_history := some h' }) := by
  refine ⟨rfl, ?_⟩
  show (updateLossHistoryLoop (m.names.zip (m.weights.zip m.losses)) h).map _ = _
  rw [updateLoop_eq_commitSpec]

/-! ### C3 -/

/-- Counterexample to C3: in the claimed scenario (add("x",1,2.0); commit;
add("x",1,3.0); commit, with no reset in between) the most recent history
entry for "x" is not 5.0. -/
theorem double_commit_last_entry_not_five : c3LastEntry ≠ some 5 := by
  norm_num [c3LastEntry, c3Run, mgrC3, addToLosses, updateLossHistory,
    updateLossHistoryLoop, histLookup, histSet, updateLast, Except.map,
    Except.bind, Bind.bind]

/-- C3 amended: the scenario leaves `history["x"]` a single merged entry, but
its value is 7.0, because the second commit re-processes the still-recorded
first term (2.0 + 2.0 + 3.0): the terms are only cleared by `reset`. -/
theorem double_commit_accumulates_to_seven :
    c3LastEntry = some 7
    ∧ c3Run = Except.ok { mgrC3 with
        loss_history := some [("x", [7])],
        names := ["x", "x"], weights := [1, 1], losses := [2, 3] } := by
  constructor <;>
    norm_num [c3LastEntry, c3Run, mgrC3, addToLosses, updateLossHistory,
      updateLossHistoryLoop, histLookup, histSet, updateLast, Except.map,
      Except.bind, Bind.bind]

/-! ### C4 -/

theorem initLossManager_ok_empty (ps : List Param) (l1 : α)
    (h : Option (List (String × List α))) (m : LossManager α)
    (heq : initLossManager ps l1 h = Except.ok m) :
    m.names = [] ∧ m.weights = [] ∧ m.losses = [] := by
  simp only [initLossManager] at heq
  split at heq
  · cases heq
  · cases heq
    exact ⟨rfl, rfl, rfl⟩

theorem updateLossHistory_ok_frame (m m' : LossManager α)
    (heq : updateLossHistory m = Except.ok m') :
    m'.names = m.names ∧ m'.weights = m.weights ∧ m'.losses = m.losses
    ∧ m'.reg_params = m.reg_params ∧ m'.l1_coeff = m.l1_coeff := by
  unfold updateLossHistory at heq
  split at heq
  · cases heq
    exact ⟨rfl, rfl, rfl, rfl, rfl⟩
  · rename_i h hsome
    cases hloop : updateLossHistoryLoop (m.names.zip (m.weights.zip m.losses)) h with
    | error e => rw [hloop] at heq; simp [Except.map] at heq
    | ok h' =>
      rw [hloop] at heq
      simp only [Except.map] at heq
      cases heq
      exact ⟨rfl, rfl, rfl, rfl, rfl⟩

/-- C4: every state reachable from a successful construction through the
accumulator's operations satisfies the lock-step invariant (the three
parallel sequences have equal length, with index i referring to the same
term); `addToLosses` appends to all three simultaneously and never
partially; after `resetLosses` all three are empty; construction produces
them empty; and `updateLossHistory` leaves them untouched.
(`computeTotalLoss` is a pure function of the state and changes nothing.) -/
theorem lockstep_invariant :
    (∀ m : LossManager α, Reachable m → lockStep m)
    ∧ (∀ (m : LossManager α) (n : String) (w v : α),
        (addToLosses m n w v).names = m.names ++ [n]
        ∧ (addToLosses m n w v).weights = m.weights ++ [w]
        ∧ (addToLosses m n w v).losses = m.losses ++ [v])
    ∧ (∀ m : LossManager α,
        (resetLosses m).names = [] ∧ (resetLosses m).weights = []
        ∧ (resetLosses m).losses = [])
    ∧ (∀ (ps : List Param) (l1 : α) (h : Option (List (String × List α)))
        (m : LossManager α), initLossManager ps l1 h = Except.ok m →
        m.names = [] ∧ m.weights = [] ∧ m.losses = [])
    ∧ (∀ (m m' : LossManager α), updateLossHistory m = Except.ok m' →
        m'.names = m.names ∧ m'.weights = m.weights ∧ m'.losses = m.losses) := by
  refine ⟨?_, fun m n w v => ⟨rfl, rfl, rfl⟩, fun m => ⟨rfl, rfl, rfl⟩,
    fun ps l1 h m heq => initLossManager_ok_empty ps l1 h m heq,
    fun m m' heq =>
      ⟨(updateLossHistory_ok_frame m m' heq).1,
       (updateLossHistory_ok_frame m m' heq).2.1,
       (updateLossHistory_ok_frame m m' heq).2.2.1⟩⟩
  intro m hm
  induction hm with
  | init ps l1 h m heq =>
    obtain ⟨h1, h2, h3⟩ := initLossManager_ok_empty ps l1 h m heq
    simp [lockStep, h1, h2, h3]
  | add m n w v _ ih =>
    simp only [lockStep, addToLosses, List.length_append, List.length_cons,
      List.length_nil] at ih ⊢
    omega
  | reset m _ _ => simp [lockStep, resetLosses]
  | commit m m' _ heq ih =>
    obtain ⟨h1, h2, h3, _, _⟩ := updateLossHistory_ok_frame m m' heq
    simpa [lockStep, h1, h2, h3] using ih

/-- Witness for C4: a state actually reached by construct; reset; add
satisfies the lock-step invariant. -/
theorem lockstep_invariant_witness :
    lockStep (addToLosses (resetLosses mgrInitQ) "a" (1 : ℚ) 2) :=
  (lockstep_invariant (α := ℚ)).1 _
    (Reachable.add _ _ _ _ (Reachable.reset _
      (Reachable.init psGood 1 none mgrInitQ (by
        have hf : psGood.filter
            (fun p => !(strContains p.name ".bias") && p.requiresGrad)
              = psGood := by decide
        simp only [initLossManager, hf]
        norm_num [psGood, mgrInitQ]))))

/-! ### C8 -/

theorem histLookup_histSet_none (h : List (String × List α)) (k n : String)
    (v : List α) (hn : histLookup h n = none) :
    histLookup (histSet h k v) n = none := by
  induction h with
  | nil => rfl
  | cons p t ih =>
    obtain ⟨pk, pv⟩ := p
    rw [histLookup] at hn
    by_cases hpk : pk = n
    · rw [if_pos hpk] at hn
      cases hn
    · rw [if_neg hpk] at hn
      rw [histSet]
      by_cases hk2 : pk = k
      · rw [if_pos hk2, histLookup, if_neg hpk]
        exact hn
      · rw [if_neg hk2, histLookup, if_neg hpk]
        exact ih hn

theorem updateLoop_error_of_bad_term (terms : List (String × α × α))
    (h : List (String × List α)) (t : String × α × α)
    (hmem : t ∈ terms) (hw : 0 < t.2.1) (hla : histLookup h t.1 = none) :
    updateLossHistoryLoop terms h = Except.error "KeyError" := by
  induction terms generalizing h with
  | nil => cases hmem
  | cons s rest ih =>
    obtain ⟨sn, sw, sl⟩ := s
    rcases List.mem_cons.mp hmem with heq | hmem'
    · subst heq
      dsimp only at hw hla
      rw [updateLossHistoryLoop, if_pos hw, hla]
    · rw [updateLossHistoryLoop]
      by_cases hsw : 0 < sw
      · rw [if_pos hsw]
        cases hlk : histLookup h sn with
        | none => rfl
        | some entries =>
          dsimp only
          by_cases hlen : 0 < entries.length
          · rw [if_pos hlen]
            exact ih _ hmem' (histLookup_histSet_none h sn t.1 _ hla)
          · rw [if_neg hlen]
            exact ih _ hmem' (histLookup_histSet_none h sn t.1 _ hla)
      · rw [if_neg hsw]
        exact ih _ hmem' hla

/-- C8: construction on a model with no regularizable parameter (so the
counted element total is zero) fails immediately with the hard
`ZeroDivisionError`, and `updateLossHistory` with a recorded term of weight
> 0 whose name has no slot in the configured history fails immediately with
the hard `KeyError`; neither error is recovered from. -/
theorem hard_failure_on_bad_preconditions :
    (∀ (ps : List Param) (l1 : α) (h : Option (List (String × List α))),
      ps.filter (fun p => !(strContains p.name ".bias") && p.requiresGrad) = [] →
      initLossManager ps l1 h = Except.error "ZeroDivisionError")
    ∧ (∀ (m : LossManager α) (hist : List (String × List α))
        (t : String × α × α), m.loss_history = some hist →
        t ∈ m.names.zip (m.weights.zip m.losses) → 0 < t.2.1 →
        histLookup hist t.1 = none →
        updateLossHistory m = Except.error "KeyError") := by
  constructor
  · intro ps l1 h hreg
    simp [initLossManager, hreg]
  · intro m hist t hm hmem hw hla
    simp only [updateLossHistory, hm]
    rw [updateLoop_error_of_bad_term _ _ t hmem hw hla]
    rfl

/-- Witness for C8: a bias-only/frozen model fails construction, and a
commit with the unregistered recorded name "x" fails with `KeyError`. -/
theorem hard_failure_witness :
    initLossManager psBad (1 : ℚ) none = Except.error "ZeroDivisionError"
    ∧ updateLossHistory mgrBad = Except.error "KeyError" :=
  ⟨(hard_failure_on_bad_preconditions (α := ℚ)).1 psBad 1 none (by decide),
   (hard_failure_on_bad_preconditions (α := ℚ)).2 mgrBad [("known", [])]
     ("x", 1, 2) rfl (by decide) (by decide) (by decide)⟩

/-! ### C6 -/

/-- Counterexample to C6: `roboticPriorsLoss` performs four calls into the
accumulator's `add` during a single invocation (one per prior), not exactly
one: on an empty accumulator it leaves four recorded names.  The batch has
two rows so that the pair indices (0, 1) of both the dissimilar and the
same-action pair are in range and every tensor indexing of the source is
defined. -/
theorem robotic_priors_adds_four_terms :
    (roboticPriorsLoss [[(0 : ℝ)], [0]] [[(0 : ℝ)], [0]] 0
        [[(0, 1)]] [[(0, 1)]] 1 mgrR0).2.names
      = ["temp_coherence_loss", "causality_loss", "proportionality_loss",
         "repeatability_loss"]
    ∧ (["temp_coherence_loss", "causality_loss", "proportionality_loss",
        "repeatability_loss"] : List String).length ≠ 1 := by
  constructor
  · rfl
  · decide

/-- C6 amended: every loss function except `roboticPriorsLoss` (four `add`
calls, one per prior, each with weight 1, returning `weight * (sum of the
four raw losses)`), `vaeLoss` with perceptual mode enabled (two `add` calls),
and the pure helper `reconstructionLoss` (no accumulator interaction)
performs exactly one call into the accumulator's `add` and returns
`weight * raw_loss` where `raw_loss` is the unweighted value it registered
under its name; the accumulator is otherwise untouched. -/
theorem loss_functions_registration :
    (∀ (pred target : List α) (w : α) (m : LossManager α),
      RegistersOnce (forwardModelLoss pred target w m) m "forward_loss" w)
    ∧ (∀ (ap : List (List ℝ)) (ast : List Nat) (w : ℝ) (m : LossManager ℝ),
      RegistersOnce (inverseModelLoss ap ast w m) m "inverse_loss" w)
    ∧ (∀ (params : List (List α)) (w : α) (m : LossManager α),
      RegistersOnce (l1Loss params w m) m "l1_loss" w)
    ∧ (∀ (rp : List (List ℝ)) (rst : List Nat) (w : ℝ) (m : LossManager ℝ),
      RegistersOnce (rewardModelLoss rp rst w m) m "reward_loss" w)
    ∧ (∀ (obs dobs nobs dnobs : List α) (w : α) (m : LossManager α),
      RegistersOnce (autoEncoderLoss obs dobs nobs dnobs w m) m
        "reconstruction_loss" w)
    ∧ (∀ (s p n : List (List α)) (w a : α) (m : LossManager α),
      RegistersOnce (tripletLoss s p n w m a) m "triplet_loss" w)
    ∧ (∀ (x y : List (List ℝ)) (w : ℝ) (m : LossManager ℝ),
      RegistersOnce (mutualInformationLoss x y w m) m "reward_prior" w)
    ∧ (∀ (x y : List (List ℝ)) (w : ℝ) (m : LossManager ℝ),
      RegistersOnce (rewardPriorLoss x y w m) m "reward_prior" w)
    ∧ (∀ (mi : Nat) (me : List (List Nat)) (s : List (List ℝ))
        (disc : List ℝ → ℝ) (b : Bool) (oi : List Nat) (w : ℝ)
        (m : LossManager ℝ),
      RegistersOnce (episodePriorLoss mi me s disc b oi w m) m
        "episode_prior" w)
    ∧ (∀ (dec ndec obs nobs mu nmu lv nlv er epr ner nepr : List ℝ)
        (w beta wp : ℝ) (m : LossManager ℝ),
      RegistersOnce (vaeLoss dec ndec obs nobs mu nmu lv nlv w m beta false
        er epr ner nepr wp) m "kl_loss" w)
    ∧ (∀ (dec ndec obs nobs mu nmu lv nlv er epr ner nepr : List ℝ)
        (w beta wp : ℝ) (m : LossManager ℝ),
      (vaeLoss dec ndec obs nobs mu nmu lv nlv w m beta true
          er epr ner nepr wp).2.names
        = m.names ++ ["denoising perceptual similarity", "kl_loss"]
      ∧ (vaeLoss dec ndec obs nobs mu nmu lv nlv w m beta true
          er epr ner nepr wp).2.weights = m.weights ++ [wp, beta]
      ∧ (vaeLoss dec ndec obs nobs mu nmu lv nlv w m beta true
          er epr ner nepr wp).2.losses = m.losses ++
            [mseSum er epr + mseSum ner nepr,
             klTerm mu lv + klTerm nmu nlv]
      ∧ (vaeLoss dec ndec obs nobs mu nmu lv nlv w m beta true
          er epr ner nepr wp).1
        = w * (wp * (mseSum er epr + mseSum ner nepr)
            + beta * (klTerm mu lv + klTerm nmu nlv)))
    ∧ (∀ (s ns : List (List ℝ)) (mi : Nat)
        (dp sp : List (List (Nat × Nat))) (w : ℝ) (m : LossManager ℝ),
      (roboticPriorsLoss s ns mi dp sp w m).2.names
        = m.names ++ ["temp_coherence_loss", "causality_loss",
            "proportionality_loss", "repeatability_loss"]
      ∧ (roboticPriorsLoss s ns mi dp sp w m).2.weights
        = m.weights ++ [1, 1, 1, 1]
      ∧ (roboticPriorsLoss s ns mi dp sp w m).2.losses
        = m.losses ++ [tempCoherenceLoss s ns,
            causalityLoss s (dp.getD mi []),
            proportionalityLoss s ns (sp.getD mi []),
            repeatabilityLoss s ns (sp.getD mi [])]
      ∧ (roboticPriorsLoss s ns mi dp sp w m).2.loss_history = m.loss_history
      ∧ (roboticPriorsLoss s ns mi dp sp w m).1
        = w * (tempCoherenceLoss s ns + causalityLoss s (dp.getD mi [])
            + proportionalityLoss s ns (sp.getD mi [])
            + repeatabilityLoss s ns (sp.getD mi []))) := by
  refine ⟨fun pred target w m => ⟨_, rfl, rfl, rfl, rfl, rfl, rfl, rfl⟩,
    fun ap ast w m => ⟨_, rfl, rfl, rfl, rfl, rfl, rfl, rfl⟩,
    fun params w m => ⟨_, rfl, rfl, rfl, rfl, rfl, rfl, rfl⟩,
    fun rp rst w m => ⟨_, rfl, rfl, rfl, rfl, rfl, rfl, rfl⟩,
    fun obs dobs nobs dnobs w m => ⟨_, rfl, rfl, rfl, rfl, rfl, rfl, rfl⟩,
    fun s p n w a m => ⟨_, rfl, rfl, rfl, rfl, rfl, rfl, rfl⟩,
    fun x y w m => ⟨_, rfl, rfl, rfl, rfl, rfl, rfl, rfl⟩,
    fun x y w m => ⟨_, rfl, rfl, rfl, rfl, rfl, rfl, rfl⟩,
    fun mi me s disc b oi w m => ⟨_, rfl, rfl, rfl, rfl, rfl, rfl, rfl⟩,
    fun dec ndec obs nobs mu nmu lv nlv er epr ner nepr w beta wp m =>
      ⟨_, rfl, rfl, rfl, rfl, rfl, rfl, rfl⟩,
    fun dec ndec obs nobs mu nmu lv nlv er epr ner nepr w beta wp m =>
      ⟨?_, ?_, ?_, ?_⟩,
    fun s ns mi dp sp w m => ⟨?_, ?_, ?_, ?_, ?_⟩⟩
  all_goals simp [vaeLoss, roboticPriorsLoss, addToLosses]

/-! ### C9 -/

theorem zipWith_eq_map_zip {β γ δ : Type} (f : β → γ → δ) (l1 : List β)
    (l2 : List γ) :
    List.zipWith f l1 l2 = (l1.zip l2).map (fun p => f p.1 p.2) := by
  induction l1 generalizing l2 with
  | nil => simp
  | cons a t ih => cases l2 <;> simp [ih]

theorem list_sum_pos_of_mem {l : List α} {a : α} (ha : a ∈ l) (hpos : 0 < a)
    (hnn : ∀ x ∈ l, 0 ≤ x) : 0 < l.sum := by
  induction l with
  | nil => cases ha
  | cons b t ih =>
    rw [List.sum_cons]
    rcases List.mem_cons.mp ha with rfl | ha'
    · exact add_pos_of_pos_of_nonneg hpos
        (List.sum_nonneg (fun x hx => hnn x (List.mem_cons_of_mem _ hx)))
    · exact add_pos_of_nonneg_of_pos (hnn b (List.mem_cons_self _ _))
        (ih ha' (fun x hx => hnn x (List.mem_cons_of_mem _ hx)))

/-- C9: `tripletLoss` computes
`mean(relu(distance_positive - distance_negative + margin))` with default
margin `0.2 = 1/5` as its registered raw loss, returning it weighted; the raw
triplet loss is zero whenever `distance_negative - distance_positive ≥ margin`
holds for every sample of the batch, and strictly positive whenever some
sample violates that inequality. -/
theorem triplet_zero_iff_margin (s p n : List (List α)) (w : α)
    (m : LossManager α) :
    tripletLoss s p n w m
      = (w * listMean (List.zipWith (fun dp dn => max (dp - dn + 1/5) 0)
            (List.zipWith distanceSq s p) (List.zipWith distanceSq s n)),
         addToLosses m "triplet_loss" w
           (listMean (List.zipWith (fun dp dn => max (dp - dn + 1/5) 0)
             (List.zipWith distanceSq s p) (List.zipWith distanceSq s n))))
    ∧ ((∀ pr ∈ (List.zipWith distanceSq s p).zip (List.zipWith distanceSq s n),
          1/5 ≤ pr.2 - pr.1) →
        (tripletLoss s p n w m).2.losses.getLastD 0 = 0)
    ∧ ((∃ pr ∈ (List.zipWith distanceSq s p).zip (List.zipWith distanceSq s n),
          pr.2 - pr.1 < 1/5) →
        0 < (tripletLoss s p n w m).2.losses.getLastD 0) := by
  refine ⟨rfl, ?_, ?_⟩
  · intro hall
    have hfield : (tripletLoss s p n w m).2.losses
        = m.losses ++ [listMean (List.zipWith (fun dp dn => max (dp - dn + 1/5) 0)
            (List.zipWith distanceSq s p) (List.zipWith distanceSq s n))] := rfl
    rw [hfield, List.getLastD_concat, zipWith_eq_map_zip]
    have hz : ∀ e ∈ ((List.zipWith distanceSq s p).zip
        (List.zipWith distanceSq s n)).map
          (fun pr => max (pr.1 - pr.2 + 1/5) 0), e = 0 := by
      intro e he
      obtain ⟨pr, hpr, rfl⟩ := List.mem_map.mp he
      have h1 := hall pr hpr
      have h2 : pr.1 - pr.2 + 1/5 ≤ 0 := by linarith
      exact max_eq_right h2
    rw [listMean, List.sum_eq_zero hz, zero_div]
  · intro hex
    obtain ⟨pr, hpr, hlt⟩ := hex
    have hfield : (tripletLoss s p n w m).2.losses
        = m.losses ++ [listMean (List.zipWith (fun dp dn => max (dp - dn + 1/5) 0)
            (List.zipWith distanceSq s p) (List.zipWith distanceSq s n))] := rfl
    rw [hfield, List.getLastD_concat, zipWith_eq_map_zip]
    set L := ((List.zipWith distanceSq s p).zip
      (List.zipWith distanceSq s n)).map
        (fun pr => max (pr.1 - pr.2 + 1/5) 0) with hL
    have hmem : max (pr.1 - pr.2 + 1/5) 0 ∈ L :=
      hL ▸ List.mem_map_of_mem _ hpr
    have hpos : 0 < max (pr.1 - pr.2 + 1/5) 0 :=
      lt_max_iff.mpr (Or.inl (by linarith))
    have hnn : ∀ x ∈ L, 0 ≤ x := by
      intro x hx
      obtain ⟨q, _, rfl⟩ := List.mem_map.mp hx
      exact le_max_right _ _
    have hsum : 0 < L.sum := list_sum_pos_of_mem hmem hpos hnn
    have hlen : 0 < (L.length : α) := by
      have : L ≠ [] := List.ne_nil_of_mem hmem
      exact_mod_cast List.length_pos.mpr this
    rw [listMean]
    exact div_pos hsum hlen

/-- Witness for C9: with one sample, `states = [[0]]`, `p_states = [[0]]`,
`n_states = [[1]]` satisfies the margin (`1 - 0 ≥ 1/5`, raw loss 0), and
swapping positive and negative violates it (`0 - 1 < 1/5`, raw loss
positive). -/
theorem triplet_zero_iff_margin_witness :
    (tripletLoss (α := ℚ) [[0]] [[0]] [[1]] 1 mgrQ0).2.losses.getLastD 0 = 0
    ∧ 0 < (tripletLoss (α := ℚ) [[0]] [[1]] [[0]] 1 mgrQ0).2.losses.getLastD 0 :=
  ⟨(triplet_zero_iff_margin [[0]] [[0]] [[1]] 1 mgrQ0).2.1
      (by norm_num [distanceSq]),
   (triplet_zero_iff_margin [[0]] [[1]] [[0]] 1 mgrQ0).2.2
      (by norm_num [distanceSq])⟩

/-! ### C7 -/

theorem miEps_pos : (0 : ℝ) < miEps := by norm_num [miEps]

theorem sqrt_two_pi_pos : (0 : ℝ) < Real.sqrt (2 * Real.pi) :=
  Real.sqrt_pos.mpr (by positivity)

theorem gaussC_pos : (0 : ℝ) < gaussC := div_pos one_pos sqrt_two_pi_pos

theorem colStds_nonneg (m : List (List ℝ)) : ∀ s ∈ colStds m, 0 ≤ s := by
  intro s hs
  obtain ⟨c, _, rfl⟩ := List.mem_map.mp hs
  exact Real.sqrt_nonneg _

theorem pVec_pos (m : List (List ℝ)) : ∀ a ∈ pVec m, 0 < a := by
  intro a ha
  obtain ⟨r, _, rfl⟩ := List.mem_map.mp ha
  exact add_pos_of_nonneg_of_pos
    (mul_nonneg gaussC_pos.le (Real.exp_pos _).le) miEps_pos

/-- C7: the epsilon guard is exactly `1e-10`; on every zero-variance input
(all samples identical, so each feature column has zero variance) every
denominator of an explicit division in `mutualInformationLoss` — the
`std + eps` normalisers and the guarded probability products
`p_x[x] * p_y[y]`, plus the constant `sqrt(2π)` and `2` — is strictly
positive, so no division by zero occurs; and the body of `rewardPriorLoss`
contains no division to guard at all. -/
theorem mi_epsilon_guards (x y : List (List ℝ))
    (hx : ZeroVarianceBatch x) (hy : ZeroVarianceBatch y) :
    miEps = 1 / 10000000000 ∧ MiDenomsPos x y
    ∧ rpGuardedDenominators = [] := by
  refine ⟨rfl, ?_, rfl⟩
  intro d hd
  simp only [miGuardedDenominators, List.mem_append, List.mem_cons,
    List.not_mem_nil, or_false, List.mem_map, List.mem_flatMap] at hd
  rcases hd with ((((rfl | rfl) | ⟨s, hs, rfl⟩) | ⟨s, hs, rfl⟩) | ⟨s, hs, rfl⟩)
    | ⟨a, ha, b, hb, rfl⟩
  · exact sqrt_two_pi_pos
  · norm_num
  · exact add_pos_of_nonneg_of_pos (colStds_nonneg _ _ hs) miEps_pos
  · exact add_pos_of_nonneg_of_pos (colStds_nonneg _ _ hs) miEps_pos
  · exact add_pos_of_nonneg_of_pos (colStds_nonneg _ _ hs) miEps_pos
  · exact mul_pos (pVec_pos _ _ ha) (pVec_pos _ _ hb)

/-- Witness for C7: the zero-variance batch of two identical samples. -/
theorem mi_epsilon_guards_witness :
    miEps = 1 / 10000000000 ∧ MiDenomsPos [[(0 : ℝ)], [0]] [[(0 : ℝ)], [0]]
    ∧ rpGuardedDenominators = [] :=
  mi_epsilon_guards [[(0 : ℝ)], [0]] [[(0 : ℝ)], [0]]
    (by simp [ZeroVarianceBatch]) (by simp [ZeroVarianceBatch])

/-! ### C10 -/

/-- C10: with `perceptual_similarity_loss` disabled, the single term
`vaeLoss` registers under 'kl_loss' carries the function's `weight` argument
and the full combined VAE loss — pixel-space reconstruction MSE on both
observation pairs plus `beta` times the KL divergence — not the KL divergence
alone; with perceptual mode enabled, the bare KL divergence is registered
under 'kl_loss' with weight `beta` (after the perceptual term). -/
theorem vae_kl_registration
    (dec ndec obs nobs mu nmu lv nlv er epr ner nepr : List ℝ)
    (w beta wp : ℝ) (m : LossManager ℝ) :
    ((vaeLoss dec ndec obs nobs mu nmu lv nlv w m beta false
        er epr ner nepr wp).2.names = m.names ++ ["kl_loss"]
      ∧ (vaeLoss dec ndec obs nobs mu nmu lv nlv w m beta false
          er epr ner nepr wp).2.weights = m.weights ++ [w]
      ∧ (vaeLoss dec ndec obs nobs mu nmu lv nlv w m beta false
          er epr ner nepr wp).2.losses = m.losses ++
            [mseSum dec obs + mseSum ndec nobs
              + beta * (klTerm mu lv + klTerm nmu nlv)]
      ∧ (vaeLoss dec ndec obs nobs mu nmu lv nlv w m beta false
          er epr ner nepr wp).1
        = w * (mseSum dec obs + mseSum ndec nobs
            + beta * (klTerm mu lv + klTerm nmu nlv)))
    ∧ ((vaeLoss dec ndec obs nobs mu nmu lv nlv w m beta true
        er epr ner nepr wp).2.names
          = m.names ++ ["denoising perceptual similarity", "kl_loss"]
      ∧ (vaeLoss dec ndec obs nobs mu nmu lv nlv w m beta true
          er epr ner nepr wp).2.weights = m.weights ++ [wp, beta]
      ∧ (vaeLoss dec ndec obs nobs mu nmu lv nlv w m beta true
          er epr ner nepr wp).2.losses = m.losses ++
            [mseSum er epr + mseSum ner nepr, klTerm mu lv + klTerm nmu nlv]) := by
  constructor
  · refine ⟨rfl, rfl, rfl, rfl⟩
  · refine ⟨?_, ?_, ?_⟩ <;> simp [vaeLoss, addToLosses]

end SrlZoo
